import Mathlib

/-!
Shallow embedding of `create_map_poster.py` (maptoposter): the thematic
rendering and caching pipeline.  Python values parsed from JSON theme files
are modelled by `PyVal`; numeric work is done over `ℚ` (the script's float
arithmetic is exact on the inputs the claims quantify over); geographic
coordinates entering the cache key are modelled in exact microdegrees, i.e.
the value that `f"{lat:.6f}"` prints.  Fallible operations return
`Except`/`Option`.
-/

/-- Model of a Python value as produced by `json.load` on a theme file:
strings, numbers, booleans, null, lists and (insertion-ordered) dicts.
Dicts are association lists with distinct keys. -/
inductive PyVal where
  | pstr (s : String)
  | pnum (q : ℚ)
  | pbool (b : Bool)
  | pnull
  | plist (xs : List PyVal)
  | pdict (kvs : List (String × PyVal))

/-- Python `key in d` for a dict modelled as an association list. -/
def hasKey (k : String) (kvs : List (String × PyVal)) : Bool :=
  kvs.any (fun kv => kv.1 == k)

/-- Python `d.get(key)` (`None` when absent). -/
def dictGet (k : String) (kvs : List (String × PyVal)) : Option PyVal :=
  (kvs.find? (fun kv => kv.1 == k)).map (fun kv => kv.2)

/-- Python `d.get(key, fallback)`. -/
def dictGetD (k : String) (kvs : List (String × PyVal)) (fallback : PyVal) : PyVal :=
  (dictGet k kvs).getD fallback

/-- The embedded default theme returned by `load_theme` when the requested
theme file does not exist (`create_map_poster.py` lines 87-100). -/
def default_theme : List (String × PyVal) :=
  [ ("name", .pstr "Feature-Based Shading")
  , ("bg", .pstr "#FFFFFF")
  , ("text", .pstr "#000000")
  , ("gradient_color", .pstr "#FFFFFF")
  , ("water", .pstr "#C0C0C0")
  , ("parks", .pstr "#F0F0F0")
  , ("road_motorway", .pstr "#0A0A0A")
  , ("road_primary", .pstr "#1A1A1A")
  , ("road_secondary", .pstr "#2A2A2A")
  , ("road_tertiary", .pstr "#3A3A3A")
  , ("road_residential", .pstr "#4A4A4A")
  , ("road_default", .pstr "#3A3A3A") ]

/-- The spec's four required theme keys (spec section 3, ThemeSpec invariant). -/
def requiredThemeKeys : List String := ["bg", "text", "gradient_color", "road_default"]

/-- `load_theme` (lines 78-107).  The input is `none` when the theme file does
not exist, and `some v` with `v` the `json.load` result otherwise.  A missing
file yields the embedded default.  An existing file's parsed content is
returned as loaded; the only failure is the `AttributeError` raised by
`theme.get('name', ...)` (line 104) when the parsed JSON is not a mapping. -/
def load_theme : Option PyVal → Except String PyVal
  | none => .ok (.pdict default_theme)
  | some (.pdict kvs) => .ok (.pdict kvs)
  | some _ => .error "AttributeError: object has no attribute get"

/-- `parse_color_config` (lines 146-157): a bare list becomes a vertical
gradient dict; a dict is a gradient exactly when its `type` entry is the
string `"gradient"`; anything else is a solid, returned unchanged. -/
def parse_color_config : PyVal → Bool × PyVal
  | .plist v =>
      (true, .pdict [("type", .pstr "gradient"), ("colors", .plist v),
                     ("direction", .pstr "vertical")])
  | .pdict kvs =>
      match dictGet "type" kvs with
      | some (.pstr s) => if s = "gradient" then (true, .pdict kvs) else (false, .pdict kvs)
      | _ => (false, .pdict kvs)
  | v => (false, v)

/-- The ten recognized feature names (lines 410-421), in source order. -/
def featureNames : List String :=
  ["water", "parks", "stadiums", "railway", "forest", "beach",
   "coastline", "education", "worship", "airport"]

/-- The `feature_keys` dict of `get_enabled_features` (lines 410-421): each
feature name mapped to the identically named theme key. -/
def feature_keys : List (String × String) :=
  [ ("water", "water"), ("parks", "parks"), ("stadiums", "stadiums")
  , ("railway", "railway"), ("forest", "forest"), ("beach", "beach")
  , ("coastline", "coastline"), ("education", "education")
  , ("worship", "worship"), ("airport", "airport") ]

/-- `get_enabled_features` (lines 405-427): each of the ten features is
enabled iff its theme key is present in the theme mapping. -/
def get_enabled_features (theme : List (String × PyVal)) : List (String × Bool) :=
  feature_keys.map (fun fk => (fk.1, hasKey fk.2 theme))

/-- Road hierarchy classes (spec section 3, RoadClass). -/
inductive RoadClass where
  | motorway | primary | secondary | tertiary | residential | default
deriving DecidableEq

/-- A `highway` tag value on a graph edge: a single string or a list. -/
inductive HWTag where
  | tag (s : String)
  | tags (l : List String)

/-- Tag normalization shared by colors (lines 296-298) and widths (lines
357-360): an absent tag defaults to `"unclassified"`; a list is replaced by
its first element, or `"unclassified"` when empty. -/
def normalizeHighway : Option HWTag → String
  | none => "unclassified"
  | some (.tag s) => s
  | some (.tags []) => "unclassified"
  | some (.tags (h :: _)) => h

/-- The theme-key chain of `get_edge_colors_by_type` (lines 301-312). -/
def edgeColorKey (highway : String) : String :=
  if highway ∈ ["motorway", "motorway_link"] then "road_motorway"
  else if highway ∈ ["trunk", "trunk_link", "primary", "primary_link"] then "road_primary"
  else if highway ∈ ["secondary", "secondary_link"] then "road_secondary"
  else if highway ∈ ["tertiary", "tertiary_link"] then "road_tertiary"
  else if highway ∈ ["residential", "living_street", "unclassified"] then "road_residential"
  else "road_default"

/-- The width chain of `get_edge_widths_by_type` (lines 363-372). -/
def edgeWidthOf (highway : String) : ℚ :=
  if highway ∈ ["motorway", "motorway_link"] then 12/10
  else if highway ∈ ["trunk", "trunk_link", "primary", "primary_link"] then 1
  else if highway ∈ ["secondary", "secondary_link"] then 8/10
  else if highway ∈ ["tertiary", "tertiary_link"] then 6/10
  else 4/10

/-- Modelled from the spec: the classification table of section 4.5 /
claim C4, first match wins, spec side of the refinement. -/
def specRoadClass (h : String) : RoadClass :=
  if h = "motorway" ∨ h = "motorway_link" then .motorway
  else if h = "trunk" ∨ h = "trunk_link" ∨ h = "primary" ∨ h = "primary_link" then .primary
  else if h = "secondary" ∨ h = "secondary_link" then .secondary
  else if h = "tertiary" ∨ h = "tertiary_link" then .tertiary
  else if h = "residential" ∨ h = "living_street" ∨ h = "unclassified" then .residential
  else .default

/-- The theme key looked up for each road class (spec section 4.5). -/
def roadClassKey : RoadClass → String
  | .motorway => "road_motorway"
  | .primary => "road_primary"
  | .secondary => "road_secondary"
  | .tertiary => "road_tertiary"
  | .residential => "road_residential"
  | .default => "road_default"

/-- Modelled from the spec: `widthFor` of section 4.5 (motorway 1.2,
primary 1.0, secondary 0.8, tertiary 0.6, else 0.4). -/
def specWidthFor : RoadClass → ℚ
  | .motorway => 12/10
  | .primary => 1
  | .secondary => 8/10
  | .tertiary => 6/10
  | .residential => 4/10
  | .default => 4/10

/-- Numeric value of a decimal digit character. -/
def digitVal (c : Char) : Nat := c.toNat - 48

/-- Fuel-driven decimal rendering of a natural number (most significant
digit first); `fuel` bounds the number of digits. -/
def natDecAux : Nat → Nat → List Char
  | 0, _ => []
  | fuel + 1, n =>
      if n < 10 then [Nat.digitChar n]
      else natDecAux fuel (n / 10) ++ [Nat.digitChar (n % 10)]

/-- Model of Python `str(n)` for a natural number. -/
def natDec (n : Nat) : String := ⟨natDecAux (n + 1) n⟩

/-- Left-pad a digit string with zeros to width 6, as the fractional part of
`f"{x:.6f}"` is printed. -/
def padZeros6 (s : String) : String := ⟨List.replicate (6 - s.data.length) '0' ++ s.data⟩

/-- Model of Python `f"{x:.6f}"` (line 436) on a coordinate already rounded
to six decimals, represented exactly as `μ` microdegrees: sign, integer
part, point, six-digit zero-padded fraction. -/
def fmt6 (μ : Int) : String :=
  (if μ < 0 then "-" else "") ++ natDec (μ.natAbs / 1000000) ++ "." ++
    padZeros6 (natDec (μ.natAbs % 1000000))

/-- Insert a string into a (sorted) list, keeping ascending order. -/
def insortStr (s : String) : List String → List String
  | [] => [s]
  | h :: t => if s ≤ h then s :: h :: t else h :: insortStr s t

/-- Model of Python `sorted` on a list of strings: insertion sort in
lexicographic order. -/
def sortStrings (l : List String) : List String := l.foldr insortStr []

/-- Model of Python `'_'.join`. -/
def joinUnderscore : List String → String
  | [] => ""
  | [x] => x
  | x :: y :: ys => x ++ "_" ++ joinUnderscore (y :: ys)

/-- The `features_str` of `get_cache_key` (line 435): the names of the
enabled features, sorted and joined with underscores. -/
def features_str (enabled : List (String × Bool)) : String :=
  joinUnderscore (sortStrings ((enabled.filter (fun kv => kv.2)).map (fun kv => kv.1)))

/-- The `key_string` of `get_cache_key` (line 436).  Coordinates are given
in exact microdegrees (the value printed by `f"{lat:.6f}"`). -/
def key_string (lat6 lon6 : Int) (dist : Nat) (networkType : String)
    (enabled : List (String × Bool)) : String :=
  fmt6 lat6 ++ "_" ++ fmt6 lon6 ++ "_" ++ natDec dist ++ "_" ++ networkType ++ "_" ++
    features_str enabled

/-- The network types admitted by the CLI (`--network-type` choices,
line 866). -/
def networkChoices : List String := ["drive", "all", "walk", "bike"]

/-- 32-bit bitwise combination of two naturals, one bit at a time. -/
def bitwise32 (f : Bool → Bool → Bool) : Nat → Nat → Nat → Nat
  | 0, _, _ => 0
  | k + 1, x, y =>
      (if f (x % 2 == 1) (y % 2 == 1) then 1 else 0) + 2 * bitwise32 f k (x / 2) (y / 2)

/-- 32-bit AND. -/
def land32 (x y : Nat) : Nat := bitwise32 (fun a b => a && b) 32 x y

/-- 32-bit OR. -/
def lor32 (x y : Nat) : Nat := bitwise32 (fun a b => a || b) 32 x y

/-- 32-bit XOR. -/
def lxor32 (x y : Nat) : Nat := bitwise32 (fun a b => a != b) 32 x y

/-- 32-bit complement (for inputs below `2^32`). -/
def lnot32 (x : Nat) : Nat := (2 ^ 32 - 1) - x % 2 ^ 32

/-- 32-bit left rotation. -/
def rotl32 (x c : Nat) : Nat := (x * 2 ^ c + x / 2 ^ (32 - c)) % 2 ^ 32

/-- The 64 MD5 round constants `K[i] = floor(abs(sin(i+1)) * 2^32)`. -/
def md5K : List Nat :=
  [ 0xd76aa478, 0xe8c7b756, 0x242070db, 0xc1bdceee,
    0xf57c0faf, 0x4787c62a, 0xa8304613, 0xfd469501,
    0x698098d8, 0x8b44f7af, 0xffff5bb1, 0x895cd7be,
    0x6b901122, 0xfd987193, 0xa679438e, 0x49b40821,
    0xf61e2562, 0xc040b340, 0x265e5a51, 0xe9b6c7aa,
    0xd62f105d, 0x02441453, 0xd8a1e681, 0xe7d3fbc8,
    0x21e1cde6, 0xc33707d6, 0xf4d50d87, 0x455a14ed,
    0xa9e3e905, 0xfcefa3f8, 0x676f02d9, 0x8d2a4c8a,
    0xfffa3942, 0x8771f681, 0x6d9d6122, 0xfde5380c,
    0xa4beea44, 0x4bdecfa9, 0xf6bb4b60, 0xbebfbc70,
    0x289b7ec6, 0xeaa127fa, 0xd4ef3085, 0x04881d05,
    0xd9d4d039, 0xe6db99e5, 0x1fa27cf8, 0xc4ac5665,
    0xf4292244, 0x432aff97, 0xab9423a7, 0xfc93a039,
    0x655b59c3, 0x8f0ccc92, 0xffeff47d, 0x85845dd1,
    0x6fa87e4f, 0xfe2ce6e0, 0xa3014314, 0x4e0811a1,
    0xf7537e82, 0xbd3af235, 0x2ad7d2bb, 0xeb86d391 ]

/-- The MD5 per-round left-rotation amounts. -/
def md5S : List Nat :=
  [ 7, 12, 17, 22, 7, 12, 17, 22, 7, 12, 17, 22, 7, 12, 17, 22,
    5,  9, 14, 20, 5,  9, 14, 20, 5,  9, 14, 20, 5,  9, 14, 20,
    4, 11, 16, 23, 4, 11, 16, 23, 4, 11, 16, 23, 4, 11, 16, 23,
    6, 10, 15, 21, 6, 10, 15, 21, 6, 10, 15, 21, 6, 10, 15, 21 ]

/-- MD5 padding: append `0x80`, zero bytes up to 56 mod 64, then the
original bit length as eight little-endian bytes. -/
def md5Pad (msg : List Nat) : List Nat :=
  msg ++ [0x80] ++ List.replicate ((56 + 64 - (msg.length + 1) % 64) % 64) 0 ++
    (List.range 8).map (fun k => 8 * msg.length / 2 ^ (8 * k) % 256)

/-- Little-endian 32-bit word from (up to) four bytes. -/
def le32 (bytes : List Nat) : Nat := bytes.foldr (fun b acc => b + 256 * acc) 0

/-- The `j`-th message word of a 64-byte chunk. -/
def md5Word (chunk : List Nat) (j : Nat) : Nat := le32 ((chunk.drop (4 * j)).take 4)

/-- One MD5 round (round index `i`, message words `M`). -/
def md5Round (chunk : List Nat) (st : Nat × Nat × Nat × Nat) (i : Nat) :
    Nat × Nat × Nat × Nat :=
  let a := st.1; let b := st.2.1; let c := st.2.2.1; let d := st.2.2.2
  let fg : Nat × Nat :=
    if i < 16 then (lor32 (land32 b c) (land32 (lnot32 b) d), i)
    else if i < 32 then (lor32 (land32 d b) (land32 (lnot32 d) c), (5 * i + 1) % 16)
    else if i < 48 then (lxor32 b (lxor32 c d), (3 * i + 5) % 16)
    else (lxor32 c (lor32 b (lnot32 d)), 7 * i % 16)
  let f := (fg.1 + a + md5K.getD i 0 + md5Word chunk fg.2) % 2 ^ 32
  (d, (b + rotl32 f (md5S.getD i 0)) % 2 ^ 32, b, c)

/-- Process one 64-byte chunk. -/
def md5Chunk (st : Nat × Nat × Nat × Nat) (chunk : List Nat) : Nat × Nat × Nat × Nat :=
  let r := (List.range 64).foldl (md5Round chunk) st
  ((st.1 + r.1) % 2 ^ 32, (st.2.1 + r.2.1) % 2 ^ 32,
   (st.2.2.1 + r.2.2.1) % 2 ^ 32, (st.2.2.2 + r.2.2.2) % 2 ^ 32)

/-- Split a byte list into 64-byte chunks (`fuel` bounds the recursion). -/
def splitChunks : Nat → List Nat → List (List Nat)
  | 0, _ => []
  | _, [] => []
  | fuel + 1, l => l.take 64 :: splitChunks fuel (l.drop 64)

/-- Two lowercase hex digits of a byte. -/
def byteHex (b : Nat) : List Char := [Nat.digitChar (b / 16 % 16), Nat.digitChar (b % 16)]

/-- Little-endian hex rendering of a 32-bit word. -/
def wordHex (w : Nat) : List Char :=
  ((List.range 4).map (fun k => w / 2 ^ (8 * k) % 256)).flatMap byteHex

/-- `hashlib.md5(...).hexdigest()` on a byte string. -/
def md5Hex (msg : List Nat) : String :=
  let padded := md5Pad msg
  let st := (splitChunks (padded.length + 1) padded).foldl md5Chunk
    (0x67452301, 0xefcdab89, 0x98badcfe, 0x10325476)
  ⟨wordHex st.1 ++ wordHex st.2.1 ++ wordHex st.2.2.1 ++ wordHex st.2.2.2⟩

/-- UTF-8 bytes of an ASCII string (every string fed to the hash here is
ASCII, so this is the code-point list). -/
def strBytes (s : String) : List Nat := s.data.map Char.toNat

/-- `get_cache_key` (lines 429-437): the MD5 hex digest of `key_string`. -/
def get_cache_key (lat6 lon6 : Int) (dist : Nat) (networkType : String)
    (enabled : List (String × Bool)) : String :=
  md5Hex (strBytes (key_string lat6 lon6 dist networkType enabled))

/-- The cache key as computed in `create_poster` (lines 475-484): the
enabled-feature set is derived from the theme, then hashed with the
request parameters. -/
def posterCacheKey (theme : List (String × PyVal)) (lat6 lon6 : Int) (dist : Nat)
    (networkType : String) : String :=
  get_cache_key lat6 lon6 dist networkType (get_enabled_features theme)

/-- An RGB color with exact rational channels (matplotlib colors live in
`[0,1]` per channel). -/
abbrev Color := ℚ × ℚ × ℚ

/-- Linear interpolation of one channel. -/
def lerp (a b t : ℚ) : ℚ := a + t * (b - a)

/-- Channelwise linear interpolation of two colors. -/
def lerpColor (c d : Color) (t : ℚ) : Color :=
  (lerp c.1 d.1 t, lerp c.2.1 d.2.1 t, lerp c.2.2 d.2.2 t)

/-- Sampling the colormap `LinearSegmentedColormap.from_list(stops)` at
`t ∈ [0,1]` (lines 262-267 and 338-339): the stops are spread evenly over
`[0,1]` and adjacent stops are interpolated linearly.  The 256-entry lookup
table matplotlib builds is modelled continuously; the table is itself the
linear interpolation of the stops with exact values at both ends. -/
def sampleCmap (stops : List Color) (t : ℚ) : Color :=
  let n := stops.length
  let x := t * ((n : ℚ) - 1)
  let i := min (Int.toNat ⌊x⌋) (n - 2)
  lerpColor (stops.getD i (0, 0, 0)) (stops.getD (i + 1) (0, 0, 0)) (x - (i : ℚ))

/-- Normalization width `maxx - minx or 1.0` (line 292). -/
def effWidth : ℚ × ℚ × ℚ × ℚ → ℚ
  | (minx, _, maxx, _) => if maxx - minx = 0 then 1 else maxx - minx

/-- Normalization height `maxy - miny or 1.0` (line 293). -/
def effHeight : ℚ × ℚ × ℚ × ℚ → ℚ
  | (_, miny, _, maxy) => if maxy - miny = 0 then 1 else maxy - miny

/-- Gradient sampling for one edge (lines 320-339): normalize the midpoint
along the gradient axis with the network bounds, clamp to `[0,1]`, sample
the stop colormap. -/
def gradientEdgeColor (stops : List Color) (vertical : Bool) (mid : ℚ × ℚ)
    (bounds : ℚ × ℚ × ℚ × ℚ) : Color :=
  let pos := if vertical then (mid.2 - bounds.2.1) / effHeight bounds
             else (mid.1 - bounds.1) / effWidth bounds
  sampleCmap stops (max 0 (min 1 pos))

/-- A street-network graph: nodes are id with `x`/`y` coordinates, edges
carry an optional `highway` tag. -/
structure Graph where
  nodes : List (Nat × ℚ × ℚ)
  edges : List (Nat × Nat × Option HWTag)

/-- `G.nodes[u]` as a lookup. -/
def findNode (G : Graph) (u : Nat) : Option (ℚ × ℚ) :=
  (G.nodes.find? (fun n => n.1 == u)).map (fun n => n.2)

/-- Minimum of a nonempty list, head-seeded (Python `min`). -/
def listMin (h : ℚ) (t : List ℚ) : ℚ := t.foldl min h

/-- Maximum of a nonempty list, head-seeded (Python `max`). -/
def listMax (h : ℚ) (t : List ℚ) : ℚ := t.foldl max h

/-- The crude bounds calculation of `get_edge_colors_by_type`
(lines 277-289): node extremes, or `(0, 0, 1, 1)` when there are no nodes. -/
def computeBounds (G : Graph) : ℚ × ℚ × ℚ × ℚ :=
  match G.nodes.map (fun n => n.2.1), G.nodes.map (fun n => n.2.2) with
  | x0 :: xt, y0 :: yt => (listMin x0 xt, listMin y0 yt, listMax x0 xt, listMax y0 yt)
  | _, _ => (0, 0, 1, 1)

/-- The `colors` gradient parameter (line 337): the default two stops when
absent, the list value when a list, and `none` (an error the `try` block
turns into the fallback color) otherwise. -/
def gradColorsParam : PyVal → Option (List PyVal)
  | .pdict kvs =>
      match dictGet "colors" kvs with
      | none => some [.pstr "#000000", .pstr "#FFFFFF"]
      | some (.plist l) => some l
      | some _ => none
  | _ => none

/-- Whether the `direction` gradient parameter selects the vertical axis
(line 327-331): absent defaults to `"vertical"`; any non-`"vertical"` value,
string or not, selects horizontal. -/
def gradDirectionVertical : PyVal → Bool
  | .pdict kvs =>
      match dictGet "direction" kvs with
      | none => true
      | some (.pstr s) => s == "vertical"
      | some _ => false
  | _ => false

/-- An entry of the edge-color list: either a color configuration value
passed through unchanged (solid hex string, or the `'#000000'` error
fallback) or an RGBA sampled from a gradient; `mcolors.to_rgba` (line 345)
normalizes both. -/
inductive ResolvedColor where
  | fromConfig (v : PyVal)
  | sampled (c : Color)

/-- The per-edge body of `get_edge_colors_by_type` (lines 295-345).
`toRGB` models `mcolors.to_rgb` on the stop values. -/
def edgeColor (toRGB : PyVal → Color) (theme : List (String × PyVal))
    (G : Graph) (bounds : ℚ × ℚ × ℚ × ℚ) (e : Nat × Nat × Option HWTag) : ResolvedColor :=
  let highway := normalizeHighway e.2.2
  let config := dictGetD (edgeColorKey highway) theme (.pstr "#3A3A3A")
  let parsed := parse_color_config config
  if !parsed.1 then .fromConfig parsed.2
  else
    match findNode G e.1, findNode G e.2.1, gradColorsParam parsed.2 with
    | some u, some v, some stops =>
        .sampled (gradientEdgeColor (stops.map toRGB) (gradDirectionVertical parsed.2)
          ((u.1 + v.1) / 2, (u.2 + v.2) / 2) bounds)
    | _, _, _ => .fromConfig (.pstr "#000000")

/-- `get_edge_colors_by_type` (lines 269-347): per-edge colors, with bounds
either supplied or computed from the nodes. -/
def get_edge_colors_by_type (toRGB : PyVal → Color) (theme : List (String × PyVal))
    (G : Graph) (boundsOpt : Option (ℚ × ℚ × ℚ × ℚ)) : List ResolvedColor :=
  let bounds := boundsOpt.getD (computeBounds G)
  G.edges.map (edgeColor toRGB theme G bounds)

/-- `get_edge_widths_by_type` (lines 349-376). -/
def get_edge_widths_by_type (G : Graph) : List ℚ :=
  G.edges.map (fun e => edgeWidthOf (normalizeHighway e.2.2))

/-- `np.linspace(a, b, 256)[i]`. -/
def linspace256 (a b : ℚ) (i : Nat) : ℚ := a + (b - a) * (i : ℚ) / 255

/-- The fade band produced by `create_gradient_fade` (lines 112-144): its
constant RGB channels, its 256 alpha samples (index 0 is the low-`y` row,
`origin='lower'`), and the data-space extent of the band. -/
structure FadeSpec where
  rgb : Color
  alpha : Nat → ℚ
  yStart : ℚ
  yEnd : ℚ

/-- `create_gradient_fade` (lines 112-144) for a given axes `ylim`:
`location='bottom'` covers fractions 0 to 0.25 with alpha fading 1 to 0
going up; anything else is the top band covering 0.75 to 1.0 with alpha
fading 0 to 1 going up. -/
def create_gradient_fade (color : Color) (location : String) (ylim : ℚ × ℚ) : FadeSpec :=
  if location == "bottom" then
    { rgb := color, alpha := linspace256 1 0
      yStart := ylim.1 + (ylim.2 - ylim.1) * 0
      yEnd := ylim.1 + (ylim.2 - ylim.1) * (25 / 100) }
  else
    { rgb := color, alpha := linspace256 0 1
      yStart := ylim.1 + (ylim.2 - ylim.1) * (75 / 100)
      yEnd := ylim.1 + (ylim.2 - ylim.1) * 1 }

/-- The two fades applied by `create_poster` (lines 695-696), both with the
theme's `gradient_color`. -/
def applyGradientFades (gradientColor : Color) (ylim : ℚ × ℚ) : FadeSpec × FadeSpec :=
  (create_gradient_fade gradientColor "bottom" ylim,
   create_gradient_fade gradientColor "top" ylim)

/-- State of one stored cache entry for a key: no file, a file that fails to
unpickle, or a file holding dataset `d`. -/
inductive CacheEntry (δ : Type) where
  | absent
  | corrupt (msg : String)
  | valid (d : δ)

/-- `load_from_cache` (lines 454-469): the dataset when the file exists and
deserializes, `None` when the file is missing, and `None` (after the
`except` handler) when unpickling fails. -/
def load_from_cache {δ : Type} : CacheEntry δ → Option δ
  | .valid d => some d
  | .corrupt _ => none
  | .absent => none

/-- The cache consultation of `create_poster` (lines 487-614): use the
loaded dataset when there is one, otherwise fetch fresh data (the returned
flag records that a fresh fetch happened). -/
def obtainMapData {δ : Type} (e : CacheEntry δ) (fresh : δ) : δ × Bool :=
  match load_from_cache e with
  | some d => (d, false)
  | none => (fresh, true)

/-- A polygon: exterior ring and interior rings (holes). -/
abbrev PolyG := List (ℚ × ℚ) × List (List (ℚ × ℚ))

/-- A shapely geometry as it occurs in a fetched feature collection. -/
inductive Geometry where
  | point (x y : ℚ)
  | lineString (pts : List (ℚ × ℚ))
  | polygon (p : PolyG)
  | multiPolygon (ps : List PolyG)

/-- `geom.geom_type` / the `gdf.geometry.type` column. -/
def Geometry.geomType : Geometry → String
  | .point _ _ => "Point"
  | .lineString _ => "LineString"
  | .polygon _ => "Polygon"
  | .multiPolygon _ => "MultiPolygon"

/-- `geom.is_empty`. -/
def Geometry.isEmptyG : Geometry → Bool
  | .point _ _ => false
  | .lineString pts => pts.isEmpty
  | .polygon p => p.1.isEmpty
  | .multiPolygon ps => ps.isEmpty

/-- A matplotlib path code. -/
inductive PathCode where
  | moveto | lineto | closepoly

/-- One ring's contribution to the path (lines 195-209): its vertices and
`MOVETO, LINETO…, CLOSEPOLY`; an empty coordinate list contributes
nothing. -/
def ringPath (coords : List (ℚ × ℚ)) : List (ℚ × ℚ) × List PathCode :=
  if coords.isEmpty then ([], [])
  else (coords, .moveto :: (List.replicate (coords.length - 2) .lineto ++ [.closepoly]))

/-- The polygons a geometry contributes to the path (lines 184-191):
a `Polygon` itself, a `MultiPolygon`'s parts, nothing otherwise. -/
def geomPolys : Geometry → List PolyG
  | .polygon p => [p]
  | .multiPolygon ps => ps
  | _ => []

/-- `geoms_to_path` (lines 174-214): concatenated ring vertices and codes
over all polygonal geometries, `None` when no vertices were collected. -/
def geoms_to_path (geoms : List Geometry) : Option (List (ℚ × ℚ) × List PathCode) :=
  let rings := geoms.flatMap (fun g =>
    if g.isEmptyG then []
    else (geomPolys g).flatMap (fun p => ringPath p.1 :: p.2.map ringPath))
  let verts := rings.flatMap Prod.fst
  if verts.isEmpty then none else some (verts, rings.flatMap Prod.snd)

/-- The association list of a `PyVal` dict (`[]` otherwise). -/
def pyDictKvs : PyVal → List (String × PyVal)
  | .pdict kvs => kvs
  | _ => []

/-- What a feature layer draws. -/
inductive PlotAction where
  | solidPlot (facecolor : PyVal) (alpha z : ℚ)
  | gradientImage (path : List (ℚ × ℚ) × List PathCode) (colors : PyVal)
      (vertical : Bool) (alpha z : ℚ)

/-- `plot_feature` (lines 216-254): nothing for an absent or empty
collection; otherwise resolve the theme color configuration and draw a
solid fill, or a gradient image clipped to the collection's path (nothing
when the path is empty). -/
def plot_feature (theme : List (String × PyVal)) (gdf : Option (List Geometry))
    (themeKey : String) (fallbackColor : PyVal) (z alpha : ℚ) : Option PlotAction :=
  match gdf with
  | none => none
  | some rows =>
      if rows.isEmpty then none
      else
        let config := dictGetD themeKey theme fallbackColor
        let parsed := parse_color_config config
        if !parsed.1 then some (.solidPlot parsed.2 alpha z)
        else
          match geoms_to_path rows with
          | none => none
          | some path =>
              some (.gradientImage path
                (dictGetD "colors" (pyDictKvs parsed.2) (.plist [.pstr "#000000", .pstr "#FFFFFF"]))
                (gradDirectionVertical parsed.2) alpha z)

/-- `area_features` (line 644). -/
def area_features : List String := ["Polygon", "MultiPolygon"]

/-- `filter_geom` (lines 636-640): retain only the rows whose geometry type
is listed; an absent or empty collection is returned unchanged. -/
def filter_geom (gdf : Option (List Geometry)) (geomTypes : List String) :
    Option (List Geometry) :=
  match gdf with
  | none => none
  | some rows =>
      if rows.isEmpty then some rows
      else some (rows.filter (fun g => g.geomType ∈ geomTypes))

/-- An area-fill layer of `create_poster` (lines 645-650 with 657-665):
the collection is filtered to polygonal geometry, then plotted. -/
def areaLayer (theme : List (String × PyVal)) (gdf : Option (List Geometry))
    (themeKey : String) (fallbackColor : PyVal) (z alpha : ℚ) : Option PlotAction :=
  plot_feature theme (filter_geom gdf area_features) themeKey fallbackColor z alpha

/-- Decimal value of a digit string (for roundtrip proofs about `natDec`). -/
def parseNatChars (l : List Char) : Nat := l.foldl (fun a c => 10 * a + digitVal c) 0

/-- C6: `load_from_cache` yields a dataset exactly for an existing,
deserializable entry; a missing entry and a corrupted entry both give
`none` (never an error), and `create_poster` then proceeds to a fresh
fetch identically in the two cases. -/
theorem load_from_cache_miss_spec :
    ∀ (δ : Type) (e : CacheEntry δ) (d fresh : δ) (msg : String),
    (load_from_cache e = some d ↔ e = .valid d)
    ∧ load_from_cache (.corrupt msg : CacheEntry δ) = none
    ∧ load_from_cache (.absent : CacheEntry δ) = none
    ∧ obtainMapData (.corrupt msg : CacheEntry δ) fresh
        = obtainMapData (.absent : CacheEntry δ) fresh
    ∧ obtainMapData (.corrupt msg : CacheEntry δ) fresh = (fresh, true) := by
  intro δ e d fresh msg
  refine ⟨?_, rfl, rfl, rfl, rfl⟩
  cases e <;> simp [load_from_cache]

/-- C9: `parse_color_config` turns every list (of any length, empty and
singleton included) into a vertical-gradient dict with the list as its
stops; a dict is a gradient exactly when its `type` entry is the string
`"gradient"`, and is otherwise returned unchanged; every other value is
returned unchanged as a solid. -/
theorem parse_color_config_spec :
    ∀ (v : List PyVal) (kvs : List (String × PyVal)) (s : String) (q : ℚ) (b : Bool),
    parse_color_config (.plist v) =
      (true, .pdict [("type", .pstr "gradient"), ("colors", .plist v),
                     ("direction", .pstr "vertical")])
    ∧ ((parse_color_config (.pdict kvs)).1 = true ↔
        dictGet "type" kvs = some (.pstr "gradient"))
    ∧ (parse_color_config (.pdict kvs)).2 = .pdict kvs
    ∧ parse_color_config (.pstr s) = (false, .pstr s)
    ∧ parse_color_config (.pnum q) = (false, .pnum q)
    ∧ parse_color_config (.pbool b) = (false, .pbool b)
    ∧ parse_color_config .pnull = (false, .pnull) := by
  intro v kvs s q b
  refine ⟨rfl, ?_, ?_, rfl, rfl, rfl, rfl⟩
  · cases h : dictGet "type" kvs with
    | none => simp [parse_color_config, h]
    | some w =>
        cases w <;> simp [parse_color_config, h] <;> split_ifs with hs <;> simp [hs]
  · cases h : dictGet "type" kvs with
    | none => simp [parse_color_config, h]
    | some w =>
        cases w <;> simp [parse_color_config, h] <;> split_ifs <;> rfl

/-- An empty collection is drawn as nothing, whatever the theme says. -/
theorem plot_feature_empty (theme : List (String × PyVal)) (themeKey : String)
    (fb : PyVal) (z a : ℚ) : plot_feature theme (some []) themeKey fb z a = none := by
  simp [plot_feature]

/-- C7: `filter_geom` keeps exactly the rows whose geometry type is
`Polygon` or `MultiPolygon`; the filtering precedes color resolution, and a
collection that is absent, empty, or empty after filtering produces no
layer at all — for every theme — rather than an error. -/
theorem area_filter_spec :
    ∀ (rows : List Geometry) (theme : List (String × PyVal)) (key : String)
      (fb : PyVal) (z a : ℚ),
    (∀ g : Geometry, g ∈ (filter_geom (some rows) area_features).getD [] ↔
        g ∈ rows ∧ (g.geomType = "Polygon" ∨ g.geomType = "MultiPolygon"))
    ∧ filter_geom none area_features = none
    ∧ areaLayer theme none key fb z a = none
    ∧ areaLayer theme (some []) key fb z a = none
    ∧ ((∀ g ∈ rows, ¬(g.geomType = "Polygon" ∨ g.geomType = "MultiPolygon")) →
        areaLayer theme (some rows) key fb z a = none) := by
  intro rows theme key fb z a
  refine ⟨?_, rfl, rfl, ?_, ?_⟩
  · intro g
    rcases rows with _ | ⟨r, rs⟩
    · simp [filter_geom]
    · simp [filter_geom, List.mem_filter, area_features]
  · simp [areaLayer, filter_geom, plot_feature]
  · intro hall
    rcases rows with _ | ⟨r, rs⟩
    · simp [areaLayer, filter_geom, plot_feature]
    · have hnil : (r :: rs).filter (fun g => decide (g.geomType ∈ area_features)) = [] := by
        rw [List.filter_eq_nil_iff]
        intro g hg
        have := hall g hg
        simpa [area_features] using this
      simp only [areaLayer, filter_geom, List.isEmpty_cons, Bool.false_eq_true,
        if_false, ite_false]
      rw [hnil]
      exact plot_feature_empty theme key fb z a

/-- C3: `get_enabled_features` returns a feature set over exactly the ten
recognized names, each enabled iff the identically-named key is present in
the theme; it depends on the theme's key set only. -/
theorem get_enabled_features_spec :
    ∀ (th th' : List (String × PyVal)),
    (get_enabled_features th).map (fun kv => kv.1) = featureNames
    ∧ (∀ n b, (n, b) ∈ get_enabled_features th → b = hasKey n th)
    ∧ ((∀ k : String, hasKey k th = hasKey k th') →
        get_enabled_features th = get_enabled_features th') := by
  intro th th'
  refine ⟨rfl, ?_, ?_⟩
  · intro n b h
    simp only [get_enabled_features, List.mem_map] at h
    obtain ⟨fk, hfk, heq⟩ := h
    obtain ⟨h1, h2⟩ := Prod.mk.injEq .. ▸ heq
    fin_cases hfk <;> simp_all
  · intro hk
    simp only [get_enabled_features]
    exact List.map_congr_left (fun fk _ => by rw [hk fk.2])

/-- Witness for C3: two themes with the same keys but different values have
the same feature set. -/
theorem get_enabled_features_spec_witness :
    get_enabled_features [("bg", .pstr "#FFFFFF"), ("water", .pstr "#0000FF")]
      = get_enabled_features [("bg", .pstr "#000000"), ("water", .plist [])] :=
  (get_enabled_features_spec _ _).2.2 (fun _ => rfl)

/-- Witness for C7: a collection holding only a point and a line produces
no layer. -/
theorem area_filter_spec_witness :
    areaLayer [("water", .pstr "#C0C0C0")] (some [.point 0 0, .lineString []])
      "water" (.pstr "#C0C0C0") 1 1 = none :=
  (area_filter_spec [.point 0 0, .lineString []] [("water", .pstr "#C0C0C0")]
      "water" (.pstr "#C0C0C0") 1 1).2.2.2.2
    (by intro g hg; fin_cases hg <;> simp [Geometry.geomType])

/-- C8: both vignette fades cover a band of 25% of the vertical extent, at
the bottom and top canvas edges respectively; alpha is fully opaque at the
canvas edge and fully transparent toward the center; the two bands share
one fade color and mirror each other. -/
theorem gradient_fade_spec :
    ∀ (c : Color) (y0 y1 : ℚ),
    (applyGradientFades c (y0, y1)).1.yStart = y0
    ∧ (applyGradientFades c (y0, y1)).1.yEnd - (applyGradientFades c (y0, y1)).1.yStart
        = (y1 - y0) * (25 / 100)
    ∧ (applyGradientFades c (y0, y1)).2.yEnd = y1
    ∧ (applyGradientFades c (y0, y1)).2.yEnd - (applyGradientFades c (y0, y1)).2.yStart
        = (y1 - y0) * (25 / 100)
    ∧ (applyGradientFades c (y0, y1)).1.alpha 0 = 1
    ∧ (applyGradientFades c (y0, y1)).1.alpha 255 = 0
    ∧ (applyGradientFades c (y0, y1)).2.alpha 0 = 0
    ∧ (applyGradientFades c (y0, y1)).2.alpha 255 = 1
    ∧ (applyGradientFades c (y0, y1)).1.rgb = (applyGradientFades c (y0, y1)).2.rgb
    ∧ (∀ i : Nat, i ≤ 255 →
        (applyGradientFades c (y0, y1)).1.alpha i
          = (applyGradientFades c (y0, y1)).2.alpha (255 - i))
    ∧ (applyGradientFades c (y0, y1)).1.yStart - y0
        = y1 - (applyGradientFades c (y0, y1)).2.yEnd
    ∧ (applyGradientFades c (y0, y1)).1.yEnd - y0
        = y1 - (applyGradientFades c (y0, y1)).2.yStart := by
  intro c y0 y1
  have hbot : (applyGradientFades c (y0, y1)).1 =
      { rgb := c, alpha := linspace256 1 0,
        yStart := y0 + (y1 - y0) * 0, yEnd := y0 + (y1 - y0) * (25 / 100) } := rfl
  have htop : (applyGradientFades c (y0, y1)).2 =
      { rgb := c, alpha := linspace256 0 1,
        yStart := y0 + (y1 - y0) * (75 / 100), yEnd := y0 + (y1 - y0) * 1 } := rfl
  rw [hbot, htop]
  refine ⟨by ring, by ring, by ring, by ring, by norm_num [linspace256],
    by norm_num [linspace256], by norm_num [linspace256], by norm_num [linspace256],
    rfl, ?_, by ring, by ring⟩
  intro i hi
  simp only [linspace256]
  have hcast : ((255 - i : ℕ) : ℚ) = 255 - (i : ℚ) := by
    push_cast [Nat.cast_sub hi]
    ring
  rw [hcast]
  ring

/-- Witness for C8: mirrored alpha at a concrete index. -/
theorem gradient_fade_spec_witness :
    (applyGradientFades ((0 : ℚ), (0 : ℚ), (0 : ℚ)) (0, 1)).1.alpha 100
      = (applyGradientFades ((0 : ℚ), (0 : ℚ), (0 : ℚ)) (0, 1)).2.alpha 155 :=
  (gradient_fade_spec ((0 : ℚ), (0 : ℚ), (0 : ℚ)) 0 1).2.2.2.2.2.2.2.2.2.1 100 (by norm_num)

/-- C10: the normalization divisors of `get_edge_colors_by_type` are never
zero — a degenerate axis is replaced by 1.0 — the bounds of a graph with no
nodes fall back to `(0, 0, 1, 1)`, and every edge receives exactly one
color and one width. -/
theorem edge_color_totality_spec :
    ∀ (G : Graph) (bounds : ℚ × ℚ × ℚ × ℚ) (toRGB : PyVal → Color)
      (theme : List (String × PyVal)) (bOpt : Option (ℚ × ℚ × ℚ × ℚ))
      (minx miny maxx maxy : ℚ),
    effWidth bounds ≠ 0
    ∧ effHeight bounds ≠ 0
    ∧ (maxx = minx → effWidth (minx, miny, maxx, maxy) = 1)
    ∧ (maxy = miny → effHeight (minx, miny, maxx, maxy) = 1)
    ∧ (G.nodes = [] → computeBounds G = (0, 0, 1, 1))
    ∧ (get_edge_colors_by_type toRGB theme G bOpt).length = G.edges.length
    ∧ (get_edge_widths_by_type G).length = G.edges.length := by
  intro G bounds toRGB theme bOpt minx miny maxx maxy
  obtain ⟨a, b, c, d⟩ := bounds
  refine ⟨?_, ?_, ?_, ?_, ?_, ?_, ?_⟩
  · simp only [effWidth]
    split_ifs with h
    · exact one_ne_zero
    · exact h
  · simp only [effHeight]
    split_ifs with h
    · exact one_ne_zero
    · exact h
  · intro h
    simp [effWidth, h]
  · intro h
    simp [effHeight, h]
  · intro h
    simp [computeBounds, h]
  · simp [get_edge_colors_by_type]
  · simp [get_edge_widths_by_type]

/-- Witness for C10: degenerate bounds give divisor 1, and the empty graph
gets the fallback bounds. -/
theorem edge_color_totality_spec_witness :
    effWidth ((3 : ℚ), 0, 3, 9) = 1 ∧ computeBounds ⟨[], []⟩ = (0, 0, 1, 1) :=
  ⟨(edge_color_totality_spec ⟨[], []⟩ (0, 0, 0, 0) (fun _ => (0, 0, 0)) [] none
      3 0 3 9).2.2.1 rfl,
   (edge_color_totality_spec ⟨[], []⟩ (0, 0, 0, 0) (fun _ => (0, 0, 0)) [] none
      3 0 3 9).2.2.2.2.1 rfl⟩

/-- C4: road classification is total and follows the fixed table — list
tags are replaced by their first element (`"unclassified"` when empty),
absent tags default to `"unclassified"`, and both the color-key chain and
the width chain realize the spec's classification table, one class per
tag. -/
theorem road_classification_spec :
    ∀ (t : Option HWTag) (s h x : String) (xs : List String),
    normalizeHighway none = "unclassified"
    ∧ normalizeHighway (some (.tag s)) = s
    ∧ normalizeHighway (some (.tags [])) = "unclassified"
    ∧ normalizeHighway (some (.tags (x :: xs))) = x
    ∧ edgeColorKey h = roadClassKey (specRoadClass h)
    ∧ edgeWidthOf h = specWidthFor (specRoadClass h)
    ∧ (∃! c : RoadClass, specRoadClass (normalizeHighway t) = c) := by
  intro t s h x xs
  refine ⟨rfl, rfl, rfl, rfl, ?_, ?_, ?_⟩
  · simp only [edgeColorKey, specRoadClass, roadClassKey, List.mem_cons,
      List.not_mem_nil, or_false]
    split_ifs <;> rfl
  · simp only [edgeWidthOf, specRoadClass, specWidthFor, List.mem_cons,
      List.not_mem_nil, or_false]
    split_ifs <;> rfl
  · exact ⟨specRoadClass (normalizeHighway t), rfl, fun c hc => hc.symm⟩

/-- C1 counterexample: a theme file whose JSON is the mapping
`{"name": "Empty"}` is accepted by `load_theme` without any error, yet the
resulting theme lacks every one of the four required keys. -/
theorem load_theme_no_validation_counterexample :
    load_theme (some (.pdict [("name", .pstr "Empty")]))
      = .ok (.pdict [("name", .pstr "Empty")])
    ∧ hasKey "bg" [("name", .pstr "Empty")] = false
    ∧ hasKey "text" [("name", .pstr "Empty")] = false
    ∧ hasKey "gradient_color" [("name", .pstr "Empty")] = false
    ∧ hasKey "road_default" [("name", .pstr "Empty")] = false :=
  ⟨rfl, rfl, rfl, rfl, rfl⟩

/-- C1 as amended: `load_theme` fails when the parsed theme is not a
mapping; a missing theme file falls back to the embedded default, which
does contain the four required keys; but an input that is a mapping is
returned without any validation, so its required keys may be absent. -/
theorem load_theme_amended_spec :
    ∀ (kvs : List (String × PyVal)) (v : PyVal),
    (∀ k ∈ requiredThemeKeys, hasKey k default_theme = true)
    ∧ load_theme none = .ok (.pdict default_theme)
    ∧ load_theme (some (.pdict kvs)) = .ok (.pdict kvs)
    ∧ ((∀ l : List (String × PyVal), v ≠ .pdict l) →
        ∃ e, load_theme (some v) = .error e) := by
  intro kvs v
  refine ⟨by decide, rfl, rfl, ?_⟩
  intro hv
  cases v with
  | pdict l => exact absurd rfl (hv l)
  | pstr s => exact ⟨_, rfl⟩
  | pnum q => exact ⟨_, rfl⟩
  | pbool b => exact ⟨_, rfl⟩
  | pnull => exact ⟨_, rfl⟩
  | plist xs => exact ⟨_, rfl⟩

/-- Witness for the amended C1: the default theme has `bg`, and a JSON
string input errors. -/
theorem load_theme_amended_spec_witness :
    hasKey "bg" default_theme = true
    ∧ (∃ e, load_theme (some (.pstr "oops")) = .error e) :=
  ⟨(load_theme_amended_spec [] (.pstr "oops")).1 "bg" (by decide),
   (load_theme_amended_spec [] (.pstr "oops")).2.2.2 (fun l hl => nomatch hl)⟩

/-- Interpolation at parameter 0 gives the left endpoint. -/
theorem lerp_zero (a b : ℚ) : lerp a b 0 = a := by
  simp [lerp]

/-- Interpolation at parameter 1 gives the right endpoint. -/
theorem lerp_one (a b : ℚ) : lerp a b 1 = b := by
  simp [lerp]

/-- Channelwise interpolation at 0. -/
theorem lerpColor_zero (c d : Color) : lerpColor c d 0 = c := by
  simp [lerpColor, lerp_zero]

/-- Channelwise interpolation at 1. -/
theorem lerpColor_one (c d : Color) : lerpColor c d 1 = d := by
  simp [lerpColor, lerp_one]

/-- Sampling the stop colormap at 0 gives the first stop. -/
theorem sampleCmap_zero (stops : List Color) :
    sampleCmap stops 0 = stops.getD 0 (0, 0, 0) := by
  simp [sampleCmap, lerpColor_zero]

/-- Sampling the stop colormap at 1 gives the last stop. -/
theorem sampleCmap_one (stops : List Color) (h : 2 ≤ stops.length) :
    sampleCmap stops 1 = stops.getD (stops.length - 1) (0, 0, 0) := by
  have h1 : 1 ≤ stops.length := by omega
  have hx : (1 : ℚ) * ((stops.length : ℚ) - 1) = ((stops.length - 1 : ℕ) : ℚ) := by
    rw [one_mul, Nat.cast_sub h1, Nat.cast_one]
  have hmin : min (stops.length - 1) (stops.length - 2) = stops.length - 2 := by omega
  have hsub : ((stops.length - 1 : ℕ) : ℚ) - ((stops.length - 2 : ℕ) : ℚ) = 1 := by
    rw [Nat.cast_sub h1, Nat.cast_sub h]
    push_cast
    ring
  have hidx : stops.length - 2 + 1 = stops.length - 1 := by omega
  simp only [sampleCmap, hx, Int.floor_natCast, Int.toNat_natCast, hmin, hsub, hidx,
    lerpColor_one]

/-- With exactly two stops the sample is plain linear interpolation. -/
theorem sampleCmap_pair (c0 c1 : Color) (t : ℚ) :
    sampleCmap [c0, c1] t = lerpColor c0 c1 t := by
  simp [sampleCmap]
  norm_num

/-- Vertical gradient sampling over non-degenerate bounds, unfolded. -/
theorem gradientEdgeColor_vert (stops : List Color) (mid : ℚ × ℚ)
    (minx miny maxx maxy : ℚ) (h : miny < maxy) :
    gradientEdgeColor stops true mid (minx, miny, maxx, maxy)
      = sampleCmap stops (max 0 (min 1 ((mid.2 - miny) / (maxy - miny)))) := by
  have hne : maxy - miny ≠ 0 := sub_ne_zero.mpr (ne_of_gt h)
  simp [gradientEdgeColor, effHeight, hne]

/-- Horizontal gradient sampling over non-degenerate bounds, unfolded. -/
theorem gradientEdgeColor_horiz (stops : List Color) (mid : ℚ × ℚ)
    (minx miny maxx maxy : ℚ) (h : minx < maxx) :
    gradientEdgeColor stops false mid (minx, miny, maxx, maxy)
      = sampleCmap stops (max 0 (min 1 ((mid.1 - minx) / (maxx - minx)))) := by
  have hne : maxx - minx ≠ 0 := sub_ne_zero.mpr (ne_of_gt h)
  simp [gradientEdgeColor, effWidth, hne]

/-- The clamped normalized position is monotone in the coordinate. -/
theorem clamp_pos_mono {lo hi a a' : ℚ} (hlt : lo < hi) (hle : a ≤ a') :
    max 0 (min 1 ((a - lo) / (hi - lo))) ≤ max 0 (min 1 ((a' - lo) / (hi - lo))) := by
  have hpos : (0 : ℚ) < hi - lo := sub_pos.mpr hlt
  have hdiv : (a - lo) / (hi - lo) ≤ (a' - lo) / (hi - lo) :=
    (div_le_div_iff_of_pos_right hpos).mpr (sub_le_sub_right hle lo)
  exact max_le_max le_rfl (min_le_min le_rfl hdiv)

/-- Interpolation toward a larger stop is monotone in the parameter. -/
theorem lerp_mono {a b t t' : ℚ} (hab : a ≤ b) (ht : t ≤ t') :
    lerp a b t ≤ lerp a b t' := by
  have := mul_le_mul_of_nonneg_right ht (sub_nonneg.mpr hab)
  simp only [lerp]
  linarith

/-- C5: edge-gradient sampling normalizes the midpoint along the gradient
axis with the network bounds, clamps to `[0,1]`, and samples the stop
colormap: at the bounds minimum it returns the first stop, at the maximum
the last stop, and a two-stop gradient interpolates linearly and
monotonically in between. -/
theorem gradient_sampling_spec :
    ∀ (minx miny maxx maxy mx my my' : ℚ) (stops : List Color) (c0 c1 : Color),
      miny < maxy → minx < maxx → 2 ≤ stops.length →
    gradientEdgeColor stops true (mx, miny) (minx, miny, maxx, maxy)
        = stops.getD 0 (0, 0, 0)
    ∧ gradientEdgeColor stops true (mx, maxy) (minx, miny, maxx, maxy)
        = stops.getD (stops.length - 1) (0, 0, 0)
    ∧ gradientEdgeColor stops false (minx, my) (minx, miny, maxx, maxy)
        = stops.getD 0 (0, 0, 0)
    ∧ gradientEdgeColor stops false (maxx, my) (minx, miny, maxx, maxy)
        = stops.getD (stops.length - 1) (0, 0, 0)
    ∧ gradientEdgeColor [c0, c1] true (mx, my) (minx, miny, maxx, maxy)
        = lerpColor c0 c1 (max 0 (min 1 ((my - miny) / (maxy - miny))))
    ∧ (my ≤ my' → max 0 (min 1 ((my - miny) / (maxy - miny)))
        ≤ max 0 (min 1 ((my' - miny) / (maxy - miny))))
    ∧ (∀ a b t t' : ℚ, a ≤ b → t ≤ t' → lerp a b t ≤ lerp a b t') := by
  intro minx miny maxx maxy mx my my' stops c0 c1 hy hx hlen
  have hyne : maxy - miny ≠ 0 := sub_ne_zero.mpr (ne_of_gt hy)
  have hxne : maxx - minx ≠ 0 := sub_ne_zero.mpr (ne_of_gt hx)
  refine ⟨?_, ?_, ?_, ?_, ?_, fun h => clamp_pos_mono hy h,
    fun a b t t' h1 h2 => lerp_mono h1 h2⟩
  · rw [gradientEdgeColor_vert stops (mx, miny) minx miny maxx maxy hy]
    norm_num [sampleCmap_zero]
  · rw [gradientEdgeColor_vert stops (mx, maxy) minx miny maxx maxy hy]
    rw [show (mx, maxy).2 - miny = maxy - miny from rfl, div_self hyne]
    norm_num [sampleCmap_one stops hlen]
  · rw [gradientEdgeColor_horiz stops (minx, my) minx miny maxx maxy hx]
    norm_num [sampleCmap_zero]
  · rw [gradientEdgeColor_horiz stops (maxx, my) minx miny maxx maxy hx]
    rw [show (maxx, my).1 - minx = maxx - minx from rfl, div_self hxne]
    norm_num [sampleCmap_one stops hlen]
  · rw [gradientEdgeColor_vert [c0, c1] (mx, my) minx miny maxx maxy hy, sampleCmap_pair]

/-- Witness for C5: a two-stop vertical gradient at the bounds minimum hits
the first stop. -/
theorem gradient_sampling_spec_witness :
    gradientEdgeColor [((0 : ℚ), (0 : ℚ), (0 : ℚ)), ((1 : ℚ), (1 : ℚ), (1 : ℚ))]
        true ((5 : ℚ), (0 : ℚ)) ((0 : ℚ), (0 : ℚ), (10 : ℚ), (10 : ℚ))
      = [((0 : ℚ), (0 : ℚ), (0 : ℚ)), ((1 : ℚ), (1 : ℚ), (1 : ℚ))].getD 0 (0, 0, 0) :=
  (gradient_sampling_spec 0 0 10 10 5 0 0
      [((0 : ℚ), (0 : ℚ), (0 : ℚ)), ((1 : ℚ), (1 : ℚ), (1 : ℚ))]
      ((0 : ℚ), (0 : ℚ), (0 : ℚ)) ((1 : ℚ), (1 : ℚ), (1 : ℚ))
      (by norm_num) (by norm_num) (by decide)).1

/-- Digit characters decode to their value. -/
theorem digitVal_digitChar {d : Nat} (h : d < 10) : digitVal (Nat.digitChar d) = d := by
  interval_cases d <;> rfl

/-- Digit characters are decimal digits. -/
theorem digitChar_isDigit {d : Nat} (h : d < 10) : (Nat.digitChar d).isDigit = true := by
  interval_cases d <;> decide

/-- Every character emitted by `natDecAux` is a decimal digit. -/
theorem natDecAux_all_digits :
    ∀ (fuel n : Nat), ∀ c ∈ natDecAux fuel n, c.isDigit = true := by
  intro fuel
  induction fuel with
  | zero => intro n c hc; simp [natDecAux] at hc
  | succ f ih =>
      intro n c hc
      simp only [natDecAux] at hc
      split_ifs at hc with h10
      · rw [List.mem_singleton] at hc
        exact hc ▸ digitChar_isDigit h10
      · rcases List.mem_append.1 hc with hc | hc
        · exact ih (n / 10) c hc
        · rw [List.mem_singleton] at hc
          exact hc ▸ digitChar_isDigit (Nat.mod_lt n (by norm_num))

/-- `natDecAux` with positive fuel is never empty. -/
theorem natDecAux_ne_nil (f n : Nat) : natDecAux (f + 1) n ≠ [] := by
  simp only [natDecAux]
  split_ifs <;> simp

/-- Appending one digit multiplies the decoded value by ten. -/
theorem parseNatChars_append_digit (l : List Char) (c : Char) :
    parseNatChars (l ++ [c]) = 10 * parseNatChars l + digitVal c := by
  simp [parseNatChars, List.foldl_append]

/-- `natDecAux` round-trips through decimal decoding. -/
theorem parseNatChars_natDecAux :
    ∀ (fuel n : Nat), n < 10 ^ fuel → parseNatChars (natDecAux fuel n) = n := by
  intro fuel
  induction fuel with
  | zero =>
      intro n h
      have : n = 0 := by simpa using h
      simp [this, natDecAux, parseNatChars]
  | succ f ih =>
      intro n h
      simp only [natDecAux]
      split_ifs with h10
      · simp [parseNatChars, digitVal_digitChar h10]
      · rw [parseNatChars_append_digit, ih (n / 10) ?_, digitVal_digitChar (Nat.mod_lt n (by norm_num))]
        · omega
        · have : 10 ^ (f + 1) = 10 * 10 ^ f := by ring
          rw [this] at h
          exact Nat.div_lt_of_lt_mul h

/-- `natDec` round-trips through decimal decoding. -/
theorem parseNatChars_natDec (n : Nat) : parseNatChars (natDec n).data = n := by
  have hlt : n < 10 ^ (n + 1) := by
    calc n < 10 ^ n := Nat.lt_pow_self (by norm_num) n
    _ ≤ 10 ^ (n + 1) := Nat.pow_le_pow_right (by norm_num) (Nat.le_succ n)
  exact parseNatChars_natDecAux (n + 1) n hlt

/-- `natDec` is injective. -/
theorem natDec_inj {m n : Nat} (h : natDec m = natDec n) : m = n := by
  have hd : (natDec m).data = (natDec n).data := congrArg String.data h
  rw [← parseNatChars_natDec m, ← parseNatChars_natDec n, hd]

/-- Every character of `natDec` is a decimal digit. -/
theorem natDec_all_digits (n : Nat) : ∀ c ∈ (natDec n).data, c.isDigit = true :=
  natDecAux_all_digits (n + 1) n

/-- `natDec` is never empty. -/
theorem natDec_ne_nil (n : Nat) : (natDec n).data ≠ [] := natDecAux_ne_nil n n

/-- Leading zeros do not change the decoded value. -/
theorem parseNatChars_replicate_zero :
    ∀ (k : Nat) (l : List Char),
      parseNatChars (List.replicate k '0' ++ l) = parseNatChars l := by
  intro k
  induction k with
  | zero => intro l; simp
  | succ j ih =>
      intro l
      have : parseNatChars (List.replicate (j + 1) '0' ++ l)
          = (List.replicate j '0' ++ l).foldl (fun a c => 10 * a + digitVal c) 0 := by
        simp [parseNatChars, List.replicate_succ, digitVal]
      rw [this]
      exact ih l

/-- `padZeros6` does not change the decoded value. -/
theorem parseNatChars_padZeros6 (s : String) :
    parseNatChars (padZeros6 s).data = parseNatChars s.data := by
  have : (padZeros6 s).data = List.replicate (6 - s.data.length) '0' ++ s.data := rfl
  rw [this, parseNatChars_replicate_zero]

/-- Every character of a zero-padded digit string is a digit. -/
theorem padZeros6_all_digits (n : Nat) :
    ∀ c ∈ (padZeros6 (natDec n)).data, c.isDigit = true := by
  intro c hc
  rcases List.mem_append.1 hc with hc | hc
  · rw [List.eq_of_mem_replicate hc]
    decide
  · exact natDec_all_digits n c hc

/-- Decimal digits are not structural separator characters. -/
theorem isDigit_not_sep {c : Char} (h : c.isDigit = true) :
    c ≠ '_' ∧ c ≠ '.' ∧ c ≠ '-' := by
  refine ⟨?_, ?_, ?_⟩ <;> rintro rfl <;> simp at h

/-- Splitting at a separator character absent from both prefixes is
unambiguous. -/
theorem append_sep_inj {sep : Char} :
    ∀ (a b u v : List Char), sep ∉ a → sep ∉ b →
      a ++ sep :: u = b ++ sep :: v → a = b ∧ u = v := by
  intro a
  induction a with
  | nil =>
      intro b u v _ hb h
      cases b with
      | nil => simpa using h
      | cons c bt =>
          exfalso
          simp only [List.nil_append, List.cons_append, List.cons.injEq] at h
          exact hb (h.1 ▸ List.mem_cons_self c bt)
  | cons c at' ih =>
      intro b u v ha hb h
      cases b with
      | nil =>
          exfalso
          simp only [List.cons_append, List.nil_append, List.cons.injEq] at h
          exact ha (h.1 ▸ List.mem_cons_self c at')
      | cons d bt =>
          simp only [List.cons_append, List.cons.injEq] at h
          obtain ⟨rfl, h2⟩ := h
          have ha' : sep ∉ at' := fun hm => ha (List.mem_cons_of_mem c hm)
          have hb' : sep ∉ bt := fun hm => hb (List.mem_cons_of_mem c hm)
          obtain ⟨rfl, rfl⟩ := ih bt u v ha' hb' h2
          exact ⟨rfl, rfl⟩

/-- The character shape of `fmt6`: optional sign, integer digits, point,
padded fraction digits. -/
theorem fmt6_data (μ : Int) :
    (fmt6 μ).data = ((if μ < 0 then ['-'] else []) ++ (natDec (μ.natAbs / 1000000)).data)
      ++ '.' :: (padZeros6 (natDec (μ.natAbs % 1000000))).data := by
  simp only [fmt6]
  split_ifs with h <;>
    simp [String.data_append, List.append_assoc]

/-- The sign-and-integer part of `fmt6` never holds a point. -/
theorem fmt6_int_no_dot (μ : Int) :
    '.' ∉ (if μ < 0 then ['-'] else []) ++ (natDec (μ.natAbs / 1000000)).data := by
  intro hm
  rcases List.mem_append.1 hm with hm | hm
  · split_ifs at hm <;> simp_all
  · exact absurd rfl (isDigit_not_sep (natDec_all_digits _ _ hm)).2.1

/-- `fmt6` is injective: equal printed coordinates are equal microdegree
values. -/
theorem fmt6_inj {μ ν : Int} (h : fmt6 μ = fmt6 ν) : μ = ν := by
  have h' := congrArg String.data h
  rw [fmt6_data, fmt6_data] at h'
  obtain ⟨hsi, hfrac⟩ := append_sep_inj _ _ _ _ (fmt6_int_no_dot μ) (fmt6_int_no_dot ν) h'
  have hmod : μ.natAbs % 1000000 = ν.natAbs % 1000000 := by
    have := congrArg parseNatChars hfrac
    rwa [parseNatChars_padZeros6, parseNatChars_padZeros6,
      parseNatChars_natDec, parseNatChars_natDec] at this
  by_cases h1 : μ < 0 <;> by_cases h2 : ν < 0
  · simp only [h1, h2, if_pos, List.cons_append, List.nil_append, List.cons.injEq,
      true_and] at hsi
    have hdiv := natDec_inj (String.ext hsi)
    omega
  · exfalso
    simp only [h1, h2, if_pos, if_neg, not_false_iff, List.cons_append, List.nil_append] at hsi
    have : '-' ∈ (natDec (ν.natAbs / 1000000)).data := by
      rw [← hsi]; exact List.mem_cons_self _ _
    exact absurd rfl (isDigit_not_sep (natDec_all_digits _ _ this)).2.2
  · exfalso
    simp only [h1, h2, if_pos, if_neg, not_false_iff, List.cons_append, List.nil_append] at hsi
    have : '-' ∈ (natDec (μ.natAbs / 1000000)).data := by
      rw [hsi]; exact List.mem_cons_self _ _
    exact absurd rfl (isDigit_not_sep (natDec_all_digits _ _ this)).2.2
  · simp only [h1, h2, if_neg, not_false_iff, List.nil_append] at hsi
    have hdiv := natDec_inj (String.ext hsi)
    omega

/-- `fmt6` never prints an underscore. -/
theorem fmt6_no_underscore (μ : Int) : '_' ∉ (fmt6 μ).data := by
  intro hm
  rw [fmt6_data] at hm
  rcases List.mem_append.1 hm with hm | hm
  · rcases List.mem_append.1 hm with hm | hm
    · split_ifs at hm <;> simp_all
    · exact absurd rfl (isDigit_not_sep (natDec_all_digits _ _ hm)).1
  · rcases List.mem_cons.1 hm with hm | hm
    · simp at hm
    · exact absurd rfl (isDigit_not_sep (padZeros6_all_digits _ _ hm)).1

/-- `natDec` never prints an underscore. -/
theorem natDec_no_underscore (n : Nat) : '_' ∉ (natDec n).data := by
  intro hm
  exact absurd rfl (isDigit_not_sep (natDec_all_digits _ _ hm)).1

/-- Admitted network types contain no underscore. -/
theorem networkChoices_no_underscore {nt : String} (h : nt ∈ networkChoices) :
    '_' ∉ nt.data := by
  fin_cases h <;> decide

/-- The character shape of `key_string`: five fields separated by
underscores. -/
theorem key_string_data (lat6 lon6 : Int) (dist : Nat) (nt : String)
    (en : List (String × Bool)) :
    (key_string lat6 lon6 dist nt en).data
      = (fmt6 lat6).data ++ '_' :: ((fmt6 lon6).data ++ '_' :: ((natDec dist).data
          ++ '_' :: (nt.data ++ '_' :: (features_str en).data))) := by
  simp [key_string, String.data_append, List.append_assoc]

/-- Equal key strings (over CLI-admissible network types) have equal
fields. -/
theorem key_string_inj {lat lon lat' lon' : Int} {dist dist' : Nat} {nt nt' : String}
    {en en' : List (String × Bool)}
    (hnt : nt ∈ networkChoices) (hnt' : nt' ∈ networkChoices)
    (h : key_string lat lon dist nt en = key_string lat' lon' dist' nt' en') :
    lat = lat' ∧ lon = lon' ∧ dist = dist' ∧ nt = nt'
      ∧ features_str en = features_str en' := by
  have h' := congrArg String.data h
  rw [key_string_data, key_string_data] at h'
  obtain ⟨hlat, h'⟩ := append_sep_inj _ _ _ _ (fmt6_no_underscore lat)
    (fmt6_no_underscore lat') h'
  obtain ⟨hlon, h'⟩ := append_sep_inj _ _ _ _ (fmt6_no_underscore lon)
    (fmt6_no_underscore lon') h'
  obtain ⟨hdist, h'⟩ := append_sep_inj _ _ _ _ (natDec_no_underscore dist)
    (natDec_no_underscore dist') h'
  obtain ⟨hn, hf⟩ := append_sep_inj _ _ _ _ (networkChoices_no_underscore hnt)
    (networkChoices_no_underscore hnt') h'
  exact ⟨fmt6_inj (String.ext hlat), fmt6_inj (String.ext hlon),
    natDec_inj (String.ext hdist), String.ext hn, String.ext hf⟩

/-- The underscore join of two-or-more names, one step unfolded, at the
character level. -/
theorem joinUnderscore_data (x y : String) (ys : List String) :
    (joinUnderscore (x :: y :: ys)).data = x.data ++ '_' :: (joinUnderscore (y :: ys)).data := by
  simp [joinUnderscore, String.data_append]

/-- The underscore join is injective on lists of nonempty,
underscore-free names. -/
theorem joinUnderscore_inj :
    ∀ (l1 l2 : List String),
      (∀ s ∈ l1, s.data ≠ [] ∧ '_' ∉ s.data) →
      (∀ s ∈ l2, s.data ≠ [] ∧ '_' ∉ s.data) →
      joinUnderscore l1 = joinUnderscore l2 → l1 = l2 := by
  intro l1
  induction l1 with
  | nil =>
      intro l2 _ h2 h
      cases l2 with
      | nil => rfl
      | cons y ys =>
          exfalso
          cases ys with
          | nil =>
              have hd := congrArg String.data h
              simp only [joinUnderscore] at hd
              exact (h2 y (List.mem_cons_self y [])).1 (by simpa using hd.symm)
          | cons y' ys' =>
              have hd := congrArg String.data h
              rw [joinUnderscore_data] at hd
              simp only [joinUnderscore] at hd
              exact List.cons_ne_nil _ _ (List.append_eq_nil.1 hd.symm).2
  | cons x xs ih =>
      intro l2 h1 h2 h
      cases l2 with
      | nil =>
          exfalso
          cases xs with
          | nil =>
              have hd := congrArg String.data h
              simp only [joinUnderscore] at hd
              exact (h1 x (List.mem_cons_self x [])).1 (by simpa using hd)
          | cons x' xs' =>
              have hd := congrArg String.data h
              rw [joinUnderscore_data] at hd
              simp only [joinUnderscore] at hd
              exact List.cons_ne_nil _ _ (List.append_eq_nil.1 hd).2
      | cons y ys =>
          cases xs with
          | nil =>
              cases ys with
              | nil =>
                  have : x = y := by simpa [joinUnderscore] using h
                  rw [this]
              | cons y' ys' =>
                  exfalso
                  have hd := congrArg String.data h
                  rw [joinUnderscore_data] at hd
                  simp only [joinUnderscore] at hd
                  have : '_' ∈ x.data := by
                    rw [hd]
                    exact List.mem_append_right _ (List.mem_cons_self _ _)
                  exact (h1 x (List.mem_cons_self x [])).2 this
          | cons x' xs' =>
              cases ys with
              | nil =>
                  exfalso
                  have hd := congrArg String.data h
                  rw [joinUnderscore_data] at hd
                  simp only [joinUnderscore] at hd
                  have : '_' ∈ y.data := by
                    rw [← hd]
                    exact List.mem_append_right _ (List.mem_cons_self _ _)
                  exact (h2 y (List.mem_cons_self y [])).2 this
              | cons y' ys' =>
                  have hd := congrArg String.data h
                  rw [joinUnderscore_data, joinUnderscore_data] at hd
                  obtain ⟨hx, hj⟩ := append_sep_inj _ _ _ _
                    (h1 x (List.mem_cons_self x _)).2 (h2 y (List.mem_cons_self y _)).2 hd
                  have hxy : x = y := String.ext hx
                  have hrest : x' :: xs' = y' :: ys' :=
                    ih (y' :: ys') (fun s hs => h1 s (List.mem_cons_of_mem x hs))
                      (fun s hs => h2 s (List.mem_cons_of_mem y hs)) (String.ext hj)
                  rw [hxy, hrest]

/-- Insertion keeps exactly the old members plus the new one. -/
theorem mem_insortStr (a s : String) :
    ∀ l, a ∈ insortStr s l ↔ a = s ∨ a ∈ l := by
  intro l
  induction l with
  | nil => simp [insortStr]
  | cons h t ih =>
      simp only [insortStr]
      split_ifs with hle
      · simp [List.mem_cons]
      · simp only [List.mem_cons, ih]
        tauto

/-- Sorting keeps exactly the members. -/
theorem mem_sortStrings (a : String) : ∀ l, a ∈ sortStrings l ↔ a ∈ l := by
  intro l
  induction l with
  | nil => simp [sortStrings]
  | cons h t ih =>
      have hs : sortStrings (h :: t) = insortStr h (sortStrings t) := rfl
      rw [hs, mem_insortStr, ih, List.mem_cons]

/-- The feature names of any theme's feature set, in order. -/
theorem get_enabled_features_names (th : List (String × PyVal)) :
    (get_enabled_features th).map (fun kv => kv.1) = featureNames := rfl

/-- Enabled names are among the ten recognized names. -/
theorem enabled_names_sub (th : List (String × PyVal)) :
    ∀ s ∈ ((get_enabled_features th).filter (fun kv => kv.2)).map (fun kv => kv.1),
      s ∈ featureNames := by
  intro s hs
  have h1 : s ∈ (get_enabled_features th).map (fun kv => kv.1) :=
    List.map_subset _ (fun _ hx => List.mem_of_mem_filter hx) hs
  rwa [get_enabled_features_names] at h1

/-- Each recognized feature name is nonempty and underscore-free. -/
theorem featureNames_ok : ∀ s ∈ featureNames, s.data ≠ [] ∧ '_' ∉ s.data := by
  decide

/-- A name is among the enabled names exactly when it is paired with
`true`. -/
theorem mem_enabled_names (l : List (String × Bool)) (s : String) :
    s ∈ (l.filter (fun kv => kv.2)).map (fun kv => kv.1) ↔ (s, true) ∈ l := by
  simp only [List.mem_map, List.mem_filter]
  constructor
  · rintro ⟨⟨a, b⟩, ⟨hm, hb⟩, rfl⟩
    simp only at hb
    rwa [hb] at hm
  · intro hm
    exact ⟨(s, true), ⟨hm, rfl⟩, rfl⟩

/-- Membership of `(n, true)` in a theme's feature set characterized by key
presence. -/
theorem mem_get_enabled (th : List (String × PyVal)) (n : String) :
    (n, true) ∈ get_enabled_features th ↔ n ∈ featureNames ∧ hasKey n th = true := by
  constructor
  · intro h
    simp only [get_enabled_features, List.mem_map] at h
    obtain ⟨fk, hfk, heq⟩ := h
    fin_cases hfk <;>
      · obtain ⟨h1, h2⟩ := Prod.mk.injEq .. ▸ heq
        subst h1
        exact ⟨by decide, h2⟩
  · rintro ⟨hn, hk⟩
    fin_cases hn <;> simp [get_enabled_features, feature_keys, hk]

/-- Feature sets agreeing on their `true` members are equal. -/
theorem features_eq_of_mem (th1 th2 : List (String × PyVal))
    (hmem : ∀ s : String,
      ((s, true) ∈ get_enabled_features th1 ↔ (s, true) ∈ get_enabled_features th2)) :
    get_enabled_features th1 = get_enabled_features th2 := by
  have hk : ∀ n ∈ featureNames, hasKey n th1 = hasKey n th2 := by
    intro n hn
    cases hc1 : hasKey n th1 <;> cases hc2 : hasKey n th2 <;> try rfl
    · have := (mem_get_enabled th1 n).1 ((hmem n).2 ((mem_get_enabled th2 n).2 ⟨hn, hc2⟩))
      rw [hc1] at this
      exact absurd this.2 (by simp)
    · have := (mem_get_enabled th2 n).1 ((hmem n).1 ((mem_get_enabled th1 n).2 ⟨hn, hc1⟩))
      rw [hc2] at this
      exact absurd this.2 (by simp)
  simp only [get_enabled_features]
  exact List.map_congr_left (fun fk hfk => by
    have hmem2 : fk.2 ∈ featureNames := by fin_cases hfk <;> decide
    rw [hk fk.2 hmem2])

/-- Equal sorted-joined feature strings mean equal feature sets. -/
theorem features_str_inj (th1 th2 : List (String × PyVal))
    (h : features_str (get_enabled_features th1) = features_str (get_enabled_features th2)) :
    get_enabled_features th1 = get_enabled_features th2 := by
  have c1 : ∀ s ∈ sortStrings (((get_enabled_features th1).filter (fun kv => kv.2)).map
      (fun kv => kv.1)), s.data ≠ [] ∧ '_' ∉ s.data := by
    intro s hs
    exact featureNames_ok s (enabled_names_sub th1 s ((mem_sortStrings s _).1 hs))
  have c2 : ∀ s ∈ sortStrings (((get_enabled_features th2).filter (fun kv => kv.2)).map
      (fun kv => kv.1)), s.data ≠ [] ∧ '_' ∉ s.data := by
    intro s hs
    exact featureNames_ok s (enabled_names_sub th2 s ((mem_sortStrings s _).1 hs))
  have hl := joinUnderscore_inj _ _ c1 c2 h
  refine features_eq_of_mem th1 th2 (fun s => ?_)
  rw [← mem_enabled_names, ← mem_enabled_names]
  constructor
  · intro hm
    exact (mem_sortStrings s _).1 (hl ▸ (mem_sortStrings s _).2 hm)
  · intro hm
    exact (mem_sortStrings s _).1 (hl.symm ▸ (mem_sortStrings s _).2 hm)

/-- C2: the cache key is a pure function of location, radius, network type
and enabled-feature set — repeated computation gives the same digest, theme
changes that keep the enabled-feature set unchanged give the same digest —
and any change of coordinate (beyond the printed six decimals), radius,
CLI network type, or enabled-feature set changes the hashed key string. -/
theorem cache_key_spec :
    ∀ (lat lon lat' lon' : Int) (dist dist' : Nat) (nt nt' : String)
      (th th' : List (String × PyVal)),
      nt ∈ networkChoices → nt' ∈ networkChoices →
    get_cache_key lat lon dist nt (get_enabled_features th)
        = get_cache_key lat lon dist nt (get_enabled_features th)
    ∧ (get_enabled_features th = get_enabled_features th' →
        posterCacheKey th lat lon dist nt = posterCacheKey th' lat lon dist nt)
    ∧ (key_string lat lon dist nt (get_enabled_features th)
          = key_string lat' lon' dist' nt' (get_enabled_features th') →
        lat = lat' ∧ lon = lon' ∧ dist = dist' ∧ nt = nt'
          ∧ get_enabled_features th = get_enabled_features th') := by
  intro lat lon lat' lon' dist dist' nt nt' th th' hnt hnt'
  refine ⟨rfl, ?_, ?_⟩
  · intro h
    simp only [posterCacheKey, h]
  · intro h
    obtain ⟨h1, h2, h3, h4, h5⟩ := key_string_inj hnt hnt' h
    exact ⟨h1, h2, h3, h4, features_str_inj th th' h5⟩

/-- Witness for C2: two themes with identical keys but different color
values produce the same poster cache key. -/
theorem cache_key_spec_witness :
    posterCacheKey [("bg", .pstr "#111111"), ("water", .pstr "#AAAAAA")]
        44426700 26102500 29000 "drive"
      = posterCacheKey
          [("bg", .pstr "#222222"), ("water", .plist [.pstr "#000000", .pstr "#FFFFFF"])]
          44426700 26102500 29000 "drive" :=
  (cache_key_spec 44426700 26102500 0 0 29000 0 "drive" "drive"
      [("bg", .pstr "#111111"), ("water", .pstr "#AAAAAA")]
      [("bg", .pstr "#222222"), ("water", .plist [.pstr "#000000", .pstr "#FFFFFF"])]
      (by decide) (by decide)).2.1 (by decide)
